import Mathlib

/-!
Shallow embedding of `aospy/utils.py` (vertical-coordinate and unit
utilities for atmospheric gridded data) and verification of its
specification.

Modelling conventions:
* numpy float arrays are modelled as `List ℚ` (exact arithmetic);
  the numeric claims are about the formulas, not float rounding.
* Fields with trailing grid dimensions (lat, lon, time) are modelled
  pointwise: every array operation in the source broadcasts over those
  dimensions elementwise, so one grid point carries the whole content.
* `np.ma` masked arrays are modelled with `Option ℚ`: `none` is a
  masked element.
-/

namespace Aospy

/-- `np.max(np.abs(field))` over a 1-D array (0 for the empty array). -/
def maxAbs (l : List ℚ) : ℚ := l.foldr (fun x m => max |x| m) 0

/-- `to_pascal(field)` from utils.py: if `np.max(np.abs(field)) < 1200`,
multiply the whole field by 100 (hPa → Pa), else return it unchanged. -/
def to_pascal (field : List ℚ) : List ℚ :=
  if maxAbs field < 1200 then field.map (· * 100) else field

/-- `to_pascal` acting on a scalar surface-pressure value (a one-point
field): the same threshold test applied to its absolute value. -/
def to_pascalS (x : ℚ) : ℚ :=
  if |x| < 1200 then x * 100 else x

/-- `pfull_from_phalf(phalf)` from utils.py: `0.5*(phalf[1:] + phalf[:-1])`
along the vertical axis. -/
def pfull_from_phalf (phalf : List ℚ) : List ℚ :=
  List.zipWith (fun a b => (a + b) / 2) phalf.tail phalf.dropLast

/-- `phalf_from_pfull(pfull, val_toa, val_sfc)` from utils.py:
`phalf[0] = val_toa`, `phalf[-1] = val_sfc`,
`phalf[1:-1] = 0.5*(pfull[:-1] + pfull[1:])`. -/
def phalf_from_pfull (pfull : List ℚ) (val_toa val_sfc : ℚ) : List ℚ :=
  val_toa :: (List.zipWith (fun a b => (a + b) / 2) pfull.dropLast pfull.tail
    ++ [val_sfc])

/-- `dp_from_phalf(phalf)` from utils.py: `phalf[1:] - phalf[:-1]` along the
vertical axis. -/
def dp_from_phalf (phalf : List ℚ) : List ℚ :=
  List.zipWith (fun a b => a - b) phalf.tail phalf.dropLast

/-- `phalf_from_sigma(bk, pk, ps)` from utils.py at one grid point:
`pk + ps*bk` with `bk`, `pk` 1-D in the vertical and `ps` the surface
pressure at that point (the numpy reshaping only arranges this broadcast). -/
def phalf_from_sigma (bk pk : List ℚ) (ps : ℚ) : List ℚ :=
  List.zipWith (fun pkk bkk => pkk + ps * bkk) pk bk

/-- `level_thickness(p)` from utils.py (needs `p.size ≥ 2`):
`dp[0] = 0.5*(p[0] - p[1])`, `dp[k] = 0.5*(p[k-1] - p[k+1])` for the
interior `k`, `dp[-1] = 0.5*(p[-2] + p[-1])`; `p` is first passed through
`to_pascal`. -/
def level_thickness (p0 : List ℚ) : List ℚ :=
  let p := to_pascal p0
  ((p.getD 0 0 - p.getD 1 0) / 2)
    :: ((List.range (p.length - 2)).map
        (fun j => (p.getD j 0 - p.getD (j + 2) 0) / 2)
      ++ [(p.getD (p.length - 2) 0 + p.getD (p.length - 1) 0) / 2])

/-- The edge array of `dp_from_p` from utils.py:
`np.concatenate((p_bot, p_edges_interior, p_top))` with
`p_bot = [1.1e5]`, `p_edges_interior = 0.5*(p[:-1] + p[1:])`, `p_top = [0]`. -/
def p_edges (p : List ℚ) : List ℚ :=
  110000 :: (List.zipWith (fun a b => (a + b) / 2) p.dropLast p.tail ++ [0])

/-- The `dp` array of `dp_from_p` before masking, at one grid point:
`np.where(np.sign(ps - p_edge_below) > 0, dp_interior, dp_adj_sfc)` with
`dp_interior = p_edge_below - p_edge_above` and
`dp_adj_sfc = ps - p_edge_above`.  `p` and `ps` are the already
`to_pascal`-normalized inputs. -/
def dp_raw (p : List ℚ) (ps : ℚ) : List ℚ :=
  let edges := p_edges p
  let above := edges.tail
  let below := edges.dropLast
  List.zipWith (fun b a => if 0 < ps - b then b - a else ps - a) below above

/-- `dp_from_p(p, ps)` from utils.py at one grid point: normalize `p` and
`ps` to Pa, build `dp_raw`, then `np.ma.masked_where(ps < p, dp)`. -/
def dp_from_p (p : List ℚ) (ps : ℚ) : List (Option ℚ) :=
  let p' := to_pascal p
  let ps' := to_pascalS ps
  List.zipWith (fun pk d => if ps' < pk then none else some d) p' (dp_raw p' ps')

/-! ### Object model for `get_parent_attr` and `dict_name_keys`

Python attribute values are modelled by `Val`; an object's attribute
dictionary by an association list; the five relation attributes
`parent`, `var`, `run`, `model`, `proj` by five `Option` fields
(`none` models a missing or falsy relation attribute, since
`getattr(obj, parent, False)` followed by `if parent_obj:` skips those).
-/

/-- A Python attribute value, as far as truthiness is concerned. -/
inductive Val where
  | vNone
  | vBool (b : Bool)
  | vNum (q : ℚ)
  | vStr (s : String)
  | vArr (xs : List ℚ)
deriving DecidableEq

/-- `robust_bool(obj)` from utils.py: `bool(obj)`, falling back to
`obj.any()` (any element nonzero) when `bool` raises on a numpy array. -/
def robust_bool : Val → Bool
  | .vNone => false
  | .vBool b => b
  | .vNum q => decide (q ≠ 0)
  | .vStr s => decide (s ≠ "")
  | .vArr xs => xs.any (fun x => decide (x ≠ 0))

/-- A Python object: its attribute dictionary and the five relation
attributes `parent`, `var`, `run`, `model`, `proj` checked by
`get_parent_attr`, in that order.  As an inductive type this models the
finite acyclic object graphs on which the recursion is well defined. -/
inductive Obj where
  | mk (attrs : List (String × Val)) (parent var run model proj : Option Obj)

/-- `getattr(obj, a, False)`: the value stored under `a`, defaulting to
Python's `False` when absent. -/
def Obj.attr : Obj → String → Val
  | .mk attrs _ _ _ _ _, a =>
    ((attrs.find? (fun q => q.1 == a)).map Prod.snd).getD (.vBool false)

/-- The first truthy relation attribute of the loop
`for parent in ('parent', 'var', 'run', 'model', 'proj')`. -/
def Obj.firstLink : Obj → Option Obj
  | .mk _ p v r m pr =>
    (((p.orElse fun _ => v).orElse fun _ => r).orElse fun _ => m).orElse
      fun _ => pr

/-- `get_parent_attr(obj, attr, strict)` from utils.py: return the
object's own attribute if truthy, else recurse into the first present
relation attribute; when none is present, raise `AttributeError`
(modelled `.error ()`) if `strict` else return `None` (`.ok none`). -/
def get_parent_attr : Obj → String → Bool → Except Unit (Option Val)
  | o@(.mk _ p v r m pr), a, strict =>
    if robust_bool (o.attr a) then .ok (some (o.attr a))
    else
      match p, v, r, m, pr with
      | some po, _, _, _, _ => get_parent_attr po a strict
      | none, some vo, _, _, _ => get_parent_attr vo a strict
      | none, none, some ro, _, _ => get_parent_attr ro a strict
      | none, none, none, some mo, _ => get_parent_attr mo a strict
      | none, none, none, none, some pro => get_parent_attr pro a strict
      | none, none, none, none, none =>
          if strict then .error () else .ok none

/-- Whether some object along the walked ancestor chain (the object
itself, then repeatedly the first present relation attribute) holds a
truthy value of `a`. -/
def chain_has_attr : Obj → String → Bool
  | o@(.mk _ p v r m pr), a =>
    robust_bool (o.attr a) ||
      match p, v, r, m, pr with
      | some po, _, _, _, _ => chain_has_attr po a
      | none, some vo, _, _, _ => chain_has_attr vo a
      | none, none, some ro, _, _ => chain_has_attr ro a
      | none, none, none, some mo, _ => chain_has_attr mo a
      | none, none, none, none, some pro => chain_has_attr pro a
      | none, none, none, none, none => false

/-- Concrete object with a truthy `color` attribute and no relations. -/
def obj_with_color : Obj :=
  .mk [("color", .vStr "blue")] none none none none none

/-- Concrete object with no attributes whose `parent` is `obj_with_color`. -/
def obj_child : Obj :=
  .mk [] (some obj_with_color) none none none none

/-! ### Graph-with-fuel model for the termination claim

The inductive `Obj` type cannot express reference cycles, so the
termination analysis uses a finite object graph with explicit vertices
and a fuel-indexed evaluator: `none` means the recursion did not finish
within `fuel` nested calls. -/

/-- A finite graph of Python objects: per vertex, its attribute lookup and
its five relation attributes (`getattr` results) in priority order. -/
structure AttrGraph (n : ℕ) where
  attrs : Fin n → String → Val
  links : Fin n → List (Option (Fin n))

/-- The first present relation attribute, as followed by the recursion. -/
def next_obj {n : ℕ} (G : AttrGraph n) (v : Fin n) : Option (Fin n) :=
  (G.links v).findSome? id

/-- `get_parent_attr` on an object graph, with fuel bounding the
recursion depth: `none` means the computation did not terminate within
`fuel` nested calls. -/
def gpa_fuel {n : ℕ} (G : AttrGraph n) :
    ℕ → Fin n → String → Bool → Option (Except Unit (Option Val))
  | 0, _, _, _ => none
  | fuel + 1, v, a, strict =>
    if robust_bool (G.attrs v a) then some (.ok (some (G.attrs v a)))
    else
      match next_obj G v with
      | some w => gpa_fuel G fuel w a strict
      | none => some (if strict then .error () else .ok none)

/-- One object whose `parent` is itself (a Python reference cycle) and
which holds no truthy attribute anywhere. -/
def loop_graph : AttrGraph 1 :=
  ⟨fun _ _ => .vBool false, fun v => [some v, none, none, none, none]⟩

/-- Two objects: object 0 has only a `var` relation to object 1, which
has no relations; no truthy attributes.  The ancestor graph is finite
and acyclic. -/
def line_graph : AttrGraph 2 :=
  ⟨fun _ _ => .vBool false,
   fun v => if v.val = 0 then [none, some 1, none, none, none]
            else [none, none, none, none, none]⟩

/-! ### Model for `dict_name_keys`

Elements are objects that may or may not carry a `name` attribute; a
`tag` field keeps distinct elements distinguishable.  A Python dict is
modelled as its association list in insertion order. -/

structure Elem where
  name : Option String
  tag : ℕ
deriving DecidableEq

/-- The four relevant input shapes of `dict_name_keys`: tuple, list,
dict, or anything else. -/
inductive PyInput where
  | tup (xs : List Elem)
  | lst (xs : List Elem)
  | dct (d : List (String × Elem))
  | other
deriving DecidableEq

inductive PyErr where
  | attributeError
  | assertionError
deriving DecidableEq

/-- The dict comprehension `{obj.name: obj for obj in objs}`: raises
`AttributeError` at the first element without a `name` attribute. -/
def name_keyed : List Elem → Except PyErr (List (String × Elem))
  | [] => .ok []
  | e :: t =>
    match e.name with
    | none => .error .attributeError
    | some s =>
      match name_keyed t with
      | .ok d => .ok ((s, e) :: d)
      | .error err => .error err

/-- `dict_name_keys(objs)` from utils.py: assert the input is a tuple,
list or dict; for tuple/list input build the name-keyed dict (re-raising
`AttributeError` when an element lacks `name`); return dict input
unchanged; any other input fails the `assert` (AssertionError). -/
def dict_name_keys : PyInput → Except PyErr (List (String × Elem))
  | .tup xs => name_keyed xs
  | .lst xs => name_keyed xs
  | .dct d => .ok d
  | .other => .error .assertionError

/-! ### Indexing helpers -/

theorem zipWith_getElem?_some {α β γ : Type} (f : α → β → γ) {l₁ : List α}
    {l₂ : List β} {k : ℕ} {a : α} {b : β} (h₁ : l₁[k]? = some a)
    (h₂ : l₂[k]? = some b) : (List.zipWith f l₁ l₂)[k]? = some (f a b) := by
  rw [List.getElem?_zipWith, h₁, h₂]

theorem getElem?_eq_some_getD {α : Type} {l : List α} {i : ℕ} (d : α)
    (h : i < l.length) : l[i]? = some (l.getD i d) := by
  rw [List.getD_eq_getElem l d h]
  exact List.getElem?_eq_getElem h

theorem getD_eq_of_getElem? {α : Type} {l : List α} {i : ℕ} {v : α} (d : α)
    (h : l[i]? = some v) : l.getD i d = v := by
  rw [List.getD_eq_getD_get?, List.get?_eq_getElem?, h]
  rfl

/-! ### Structure of the `dp_from_p` edge array -/

theorem p_edges_length (p : List ℚ) (h : p ≠ []) :
    (p_edges p).length = p.length + 1 := by
  have hp : 0 < p.length := List.length_pos.mpr h
  simp [p_edges, List.length_zipWith]
  omega

theorem p_edges_bottom (p : List ℚ) : (p_edges p).getD 0 0 = 110000 := rfl

theorem p_edges_interior (p : List ℚ) (j : ℕ) (h0 : 0 < j)
    (hj : j < p.length) :
    (p_edges p)[j]? = some ((p.getD (j - 1) 0 + p.getD j 0) / 2) := by
  obtain ⟨i, rfl⟩ : ∃ i, j = i + 1 := ⟨j - 1, by omega⟩
  show (p_edges p)[i + 1]? = _
  unfold p_edges
  rw [List.getElem?_cons_succ, List.getElem?_append_left
    (by simp [List.length_zipWith]; omega)]
  rw [zipWith_getElem?_some _ (a := p.getD i 0) (b := p.getD (i + 1) 0)]
  · simp
  · rw [List.getElem?_dropLast, if_pos (by omega)]
    exact getElem?_eq_some_getD 0 (by omega)
  · rw [List.getElem?_tail]
    exact getElem?_eq_some_getD 0 hj

theorem p_edges_top (p : List ℚ) (h : p ≠ []) :
    (p_edges p)[p.length]? = some 0 := by
  have hp : 0 < p.length := List.length_pos.mpr h
  obtain ⟨m, hm⟩ : ∃ m, p.length = m + 1 := ⟨p.length - 1, by omega⟩
  rw [hm]
  unfold p_edges
  rw [List.getElem?_cons_succ]
  have hlen : (List.zipWith (fun a b => (a + b) / 2) p.dropLast p.tail).length
      = m := by
    simp [List.length_zipWith]
    omega
  rw [show m = (List.zipWith (fun a b => (a + b) / 2) p.dropLast p.tail).length
      from hlen.symm]
  exact List.getElem?_concat_length _ _

/-! ### Elementwise form of `dp_raw` and `dp_from_p` -/

theorem dp_raw_getElem (p : List ℚ) (ps : ℚ) (k : ℕ) (hk : k < p.length) :
    (dp_raw p ps)[k]? =
      some (if 0 < ps - (p_edges p).getD k 0
            then (p_edges p).getD k 0 - (p_edges p).getD (k + 1) 0
            else ps - (p_edges p).getD (k + 1) 0) := by
  have hne : p ≠ [] := by intro h; rw [h] at hk; simp at hk
  have hlen := p_edges_length p hne
  unfold dp_raw
  exact zipWith_getElem?_some _
    (by rw [List.getElem?_dropLast, if_pos (by omega)]
        exact getElem?_eq_some_getD 0 (by omega))
    (by rw [List.getElem?_tail]
        exact getElem?_eq_some_getD 0 (by omega))

theorem dp_raw_length (p : List ℚ) (ps : ℚ) (h : p ≠ []) :
    (dp_raw p ps).length = p.length := by
  have hlen := p_edges_length p h
  simp [dp_raw, List.length_zipWith]
  omega

theorem dp_from_p_getElem (p : List ℚ) (ps : ℚ) (hp : to_pascal p = p)
    (hps : to_pascalS ps = ps) (k : ℕ) (hk : k < p.length) :
    (dp_from_p p ps)[k]? =
      some (if ps < p.getD k 0 then none
            else some ((dp_raw p ps).getD k 0)) := by
  have hne : p ≠ [] := by intro h; rw [h] at hk; simp at hk
  have hk2 : k < (dp_raw p ps).length := by
    rw [dp_raw_length p ps hne]; exact hk
  have h₂ : (dp_raw p ps)[k]? = some ((dp_raw p ps).getD k 0) :=
    getElem?_eq_some_getD 0 hk2
  unfold dp_from_p
  rw [hp, hps]
  exact zipWith_getElem?_some _ (getElem?_eq_some_getD 0 hk) h₂

/-- C1: for a 1-D level-center pressure array `p` and surface pressure `ps`,
both already normalized to Pa, `dp_from_p` builds layer edges that are
midpoints of adjacent levels with the bottom boundary edge fixed at
110000 Pa and the top boundary edge at 0 Pa; for each layer, when the
surface pressure exceeds the layer's lower-edge pressure the computed
thickness is the nominal interior one (lower edge minus upper edge), and
otherwise the lower edge is clipped to `ps`, so the thickness is `ps`
minus the upper edge; unmasked entries of the returned array carry
exactly that thickness. -/
theorem dp_from_p_edges_thickness (p : List ℚ) (ps : ℚ)
    (hp : to_pascal p = p) (hps : to_pascalS ps = ps)
    (k : ℕ) (hk : k < p.length) :
    (p_edges p).getD 0 0 = 110000
    ∧ (p_edges p).getD p.length 0 = 0
    ∧ (∀ j, 0 < j → j < p.length →
        (p_edges p).getD j 0 = (p.getD (j - 1) 0 + p.getD j 0) / 2)
    ∧ (dp_raw p ps).getD k 0 =
        (if (p_edges p).getD k 0 < ps
         then (p_edges p).getD k 0 - (p_edges p).getD (k + 1) 0
         else ps - (p_edges p).getD (k + 1) 0)
    ∧ (¬ ps < p.getD k 0 →
        (dp_from_p p ps).getD k none = some ((dp_raw p ps).getD k 0)) := by
  have hne : p ≠ [] := by intro h; rw [h] at hk; simp at hk
  refine ⟨p_edges_bottom p, getD_eq_of_getElem? 0 (p_edges_top p hne),
    fun j h0 hj => getD_eq_of_getElem? 0 (p_edges_interior p j h0 hj), ?_, ?_⟩
  · rw [getD_eq_of_getElem? 0 (dp_raw_getElem p ps k hk)]
    simp only [sub_pos]
  · intro h
    rw [getD_eq_of_getElem? none (dp_from_p_getElem p ps hp hps k hk),
      if_neg h]

/-- Witness for C1: standard levels `[1000, 850, 500, 200]` hPa in Pa with
`ps = 101325` Pa at the bottom layer. -/
theorem dp_from_p_edges_thickness_witness :
    (dp_raw [(100000 : ℚ), 85000, 50000, 20000] 101325).getD 0 0 =
      (if (p_edges [(100000 : ℚ), 85000, 50000, 20000]).getD 0 0 < 101325
       then (p_edges [(100000 : ℚ), 85000, 50000, 20000]).getD 0 0
            - (p_edges [(100000 : ℚ), 85000, 50000, 20000]).getD (0 + 1) 0
       else 101325 - (p_edges [(100000 : ℚ), 85000, 50000, 20000]).getD (0 + 1) 0) :=
  (dp_from_p_edges_thickness [100000, 85000, 50000, 20000] 101325
    (by decide) (by decide) 0 (by decide)).2.2.2.1

/-- C2: wherever the nominal center pressure exceeds the surface pressure
(`ps < p[k]`, inputs normalized to Pa), the element `dp_from_p` returns at
that layer is the masked sentinel (`none`), not an exception: the output
list still has an entry there. -/
theorem dp_from_p_masked (p : List ℚ) (ps : ℚ) (hp : to_pascal p = p)
    (hps : to_pascalS ps = ps) (k : ℕ) (hk : k < p.length)
    (h : ps < p.getD k 0) :
    (dp_from_p p ps)[k]? = some none := by
  rw [dp_from_p_getElem p ps hp hps k hk, if_pos h]

/-- Witness for C2: `ps = 90000` Pa lies below the lowest level
`p[0] = 100000` Pa, so that layer is masked. -/
theorem dp_from_p_masked_witness :
    (dp_from_p [(100000 : ℚ), 85000, 50000, 20000] 90000)[0]? = some none :=
  dp_from_p_masked [100000, 85000, 50000, 20000] 90000
    (by decide) (by decide) 0 (by decide) (by decide)

/-! ### Half/full level conversions -/

theorem phalf_from_pfull_length (x : List ℚ) (v1 v2 : ℚ) (h : x ≠ []) :
    (phalf_from_pfull x v1 v2).length = x.length + 1 := by
  have hp : 0 < x.length := List.length_pos.mpr h
  simp [phalf_from_pfull, List.length_zipWith]
  omega

theorem phalf_from_pfull_mid (x : List ℚ) (v1 v2 : ℚ) (j : ℕ) (h0 : 0 < j)
    (hj : j < x.length) :
    (phalf_from_pfull x v1 v2)[j]? =
      some ((x.getD (j - 1) 0 + x.getD j 0) / 2) := by
  obtain ⟨i, rfl⟩ : ∃ i, j = i + 1 := ⟨j - 1, by omega⟩
  show (phalf_from_pfull x v1 v2)[i + 1]? = _
  unfold phalf_from_pfull
  rw [List.getElem?_cons_succ, List.getElem?_append_left
    (by simp [List.length_zipWith]; omega)]
  rw [zipWith_getElem?_some _ (a := x.getD i 0) (b := x.getD (i + 1) 0)]
  · simp
  · rw [List.getElem?_dropLast, if_pos (by omega)]
    exact getElem?_eq_some_getD 0 (by omega)
  · rw [List.getElem?_tail]
    exact getElem?_eq_some_getD 0 hj

/-- C3 counterexample: for the 3-level profile `x = [1, 2, 4]` the round
trip `pfull_from_phalf (phalf_from_pfull x 0 0)` returns `9/4` at the
interior position 1, not the original value `2`. -/
theorem roundtrip_not_exact :
    ¬ (pfull_from_phalf (phalf_from_pfull [(1 : ℚ), 2, 4] 0 0)).getD 1 0
      = 2 := by
  simp [pfull_from_phalf, phalf_from_pfull]
  norm_num

/-- C3 amended: the round trip `pfull_from_phalf (phalf_from_pfull x 0 0)`
returns, at every interior position `k`, the weighted average
`(x[k-1] + 2*x[k] + x[k+1]) / 4`; it reproduces `x[k]` exactly iff `x[k]`
is the mean of its two neighbours (e.g. for linearly spaced data), and in
general interior values are smoothed, not reconstructed. -/
theorem roundtrip_interior_avg (x : List ℚ) (k : ℕ) (h0 : 0 < k)
    (hk : k + 1 < x.length) :
    (pfull_from_phalf (phalf_from_pfull x 0 0)).getD k 0 =
      (x.getD (k - 1) 0 + 2 * x.getD k 0 + x.getD (k + 1) 0) / 4
    ∧ ((pfull_from_phalf (phalf_from_pfull x 0 0)).getD k 0 = x.getD k 0 ↔
        x.getD (k - 1) 0 + x.getD (k + 1) 0 = 2 * x.getD k 0) := by
  have hne : x ≠ [] := by intro h; rw [h] at hk; simp at hk
  have hlen := phalf_from_pfull_length x 0 0 hne
  have h1 : (phalf_from_pfull x 0 0)[k]? =
      some ((x.getD (k - 1) 0 + x.getD k 0) / 2) :=
    phalf_from_pfull_mid x 0 0 k h0 (by omega)
  have h2 : (phalf_from_pfull x 0 0)[k + 1]? =
      some ((x.getD k 0 + x.getD (k + 1) 0) / 2) := by
    have := phalf_from_pfull_mid x 0 0 (k + 1) (by omega) hk
    simpa using this
  have hval : (pfull_from_phalf (phalf_from_pfull x 0 0))[k]? =
      some (((x.getD k 0 + x.getD (k + 1) 0) / 2
        + (x.getD (k - 1) 0 + x.getD k 0) / 2) / 2) := by
    unfold pfull_from_phalf
    refine zipWith_getElem?_some _ ?_ ?_
    · rw [List.getElem?_tail]; exact h2
    · rw [List.getElem?_dropLast, if_pos (by omega)]; exact h1
  have hget := getD_eq_of_getElem? 0 hval
  constructor
  · rw [hget]; ring
  · rw [hget]
    constructor <;> intro h <;> linarith

/-- Witness for C3's amended theorem at `x = [1, 2, 4]`, `k = 1`. -/
theorem roundtrip_interior_avg_witness :
    (pfull_from_phalf (phalf_from_pfull [(1 : ℚ), 2, 4] 0 0)).getD 1 0 =
      (([(1 : ℚ), 2, 4].getD 0 0) + 2 * ([(1 : ℚ), 2, 4].getD 1 0)
        + ([(1 : ℚ), 2, 4].getD 2 0)) / 4 :=
  (roundtrip_interior_avg [1, 2, 4] 1 (by decide) (by decide)).1

/-- C4 counterexample: for the bottom-is-larger half-level array
`phalf = [2, 1]` the code returns `phalf[1] - phalf[0] = -1` for layer 0,
not `phalf[0] - phalf[1] = 1` as the claim states. -/
theorem dp_from_phalf_not_bottom_first :
    ¬ (dp_from_phalf [(2 : ℚ), 1]).getD 0 0 = 2 - 1 := by
  simp [dp_from_phalf]
  norm_num

/-- C4 amended: `dp_from_phalf` returns for each layer `k` the signed
difference `phalf[k+1] - phalf[k]` (next minus current, as `np.diff`),
which is the negative of the bottom-is-larger convention when pressure
decreases with index. -/
theorem dp_from_phalf_diff (phalf : List ℚ) (k : ℕ)
    (hk : k + 1 < phalf.length) :
    (dp_from_phalf phalf).getD k 0 =
      phalf.getD (k + 1) 0 - phalf.getD k 0 := by
  refine getD_eq_of_getElem? 0 ?_
  unfold dp_from_phalf
  refine zipWith_getElem?_some _ ?_ ?_
  · rw [List.getElem?_tail]; exact getElem?_eq_some_getD 0 hk
  · rw [List.getElem?_dropLast, if_pos (by omega)]
    exact getElem?_eq_some_getD 0 (by omega)

/-- Witness for C4's amended theorem at `phalf = [2, 1]`, `k = 0`. -/
theorem dp_from_phalf_diff_witness :
    (dp_from_phalf [(2 : ℚ), 1]).getD 0 0 =
      ([(2 : ℚ), 1].getD 1 0) - ([(2 : ℚ), 1].getD 0 0) :=
  dp_from_phalf_diff [2, 1] 0 (by decide)

/-! ### `level_thickness` -/

theorem to_pascal_length (l : List ℚ) : (to_pascal l).length = l.length := by
  unfold to_pascal
  split <;> simp

theorem sum_range_map_half_sub (f : ℕ → ℚ) (m : ℕ) :
    ((List.range m).map (fun j => (f j - f (j + 2)) / 2)).sum
      = (f 0 + f 1 - f m - f (m + 1)) / 2 := by
  induction m with
  | zero => simp
  | succ m ih =>
    rw [List.range_succ, List.map_append, List.sum_append]
    simp only [List.map_cons, List.map_nil, List.sum_cons, List.sum_nil, ih]
    ring

/-- C5 counterexample: on the standard levels `[1000, 850, 500, 200]` hPa
the thicknesses of `level_thickness` sum to `100000` Pa (the bottom level
pressure), not `110000` Pa. -/
theorem level_thickness_sum_not_110000 :
    ¬ (level_thickness [(1000 : ℚ), 850, 500, 200]).sum = 110000 := by
  have hr : List.range 2 = [0, 1] := rfl
  simp [level_thickness, to_pascal, maxAbs]
  norm_num [hr]

/-- C5 amended: for a level-center pressure array with at least two levels
the output of `level_thickness` has the same length as the input, and the
thicknesses sum to the bottom level's pressure `p[0]` expressed in Pa
(100000 Pa for levels starting at 1000 hPa), not to 110000 Pa. -/
theorem level_thickness_length_sum (p : List ℚ) (h : 2 ≤ p.length) :
    (level_thickness p).length = p.length
    ∧ (level_thickness p).sum = (to_pascal p).getD 0 0 := by
  have hlen : (to_pascal p).length = p.length := to_pascal_length p
  constructor
  · simp [level_thickness, hlen]
    omega
  · show ((((to_pascal p).getD 0 0 - (to_pascal p).getD 1 0) / 2)
      :: (_ ++ [_])).sum = _
    rw [List.sum_cons, List.sum_append,
      sum_range_map_half_sub (fun j => (to_pascal p).getD j 0)]
    have h1 : (to_pascal p).length - 1 = ((to_pascal p).length - 2) + 1 := by
      omega
    rw [h1]
    simp only [List.sum_cons, List.sum_nil]
    ring

/-- Witness for C5's amended theorem on the standard levels
`[1000, 850, 500, 200]` hPa. -/
theorem level_thickness_length_sum_witness :
    (level_thickness [(1000 : ℚ), 850, 500, 200]).length
        = [(1000 : ℚ), 850, 500, 200].length
    ∧ (level_thickness [(1000 : ℚ), 850, 500, 200]).sum
        = (to_pascal [(1000 : ℚ), 850, 500, 200]).getD 0 0 :=
  level_thickness_length_sum [1000, 850, 500, 200] (by decide)

/-! ### `to_pascal` -/

theorem maxAbs_map_mul100 (l : List ℚ) :
    maxAbs (l.map (· * 100)) = maxAbs l * 100 := by
  induction l with
  | nil => simp [maxAbs]
  | cons x t ih =>
    simp only [maxAbs, List.map_cons, List.foldr_cons] at *
    rw [ih, abs_mul, show |(100 : ℚ)| = 100 by norm_num,
      max_mul_of_nonneg _ _ (by norm_num : (0 : ℚ) ≤ 100)]

/-- C6 counterexample: for the field `[1]` (max abs below 12) a first
`to_pascal` gives `[100]`, still below the 1200 threshold, so a second
call multiplies again and gives `[10000]`: `to_pascal` applied twice is
not the same as applied once. -/
theorem to_pascal_not_idempotent :
    ¬ to_pascal (to_pascal [(1 : ℚ)]) = to_pascal [(1 : ℚ)] := by
  simp [to_pascal, maxAbs]
  norm_num

/-- C6 amended: `to_pascal` applied twice equals `to_pascal` applied once
for every field whose maximum absolute value is at least 12 (then the
first call's result has maximum at least 1200, so the second call is a
no-op); for smaller fields the threshold triggers again and the values
are multiplied by 100 twice. -/
theorem to_pascal_idempotent (l : List ℚ) (h : 12 ≤ maxAbs l) :
    to_pascal (to_pascal l) = to_pascal l := by
  unfold to_pascal
  split
  · rename_i hlt
    rw [if_neg]
    rw [maxAbs_map_mul100]
    linarith
  · rfl

/-- Witness for C6's amended theorem at `l = [1000]`. -/
theorem to_pascal_idempotent_witness :
    to_pascal (to_pascal [(1000 : ℚ)]) = to_pascal [(1000 : ℚ)] :=
  to_pascal_idempotent [1000] (by norm_num [maxAbs])

/-! ### `phalf_from_sigma` -/

/-- C7: with `bk` identically 1 and `pk` identically 0, `phalf_from_sigma`
(`phalf_from_ps`) returns the surface pressure broadcast across all
vertical half levels: every half level equals `ps` at that grid point. -/
theorem phalf_from_sigma_const (n : ℕ) (ps : ℚ) :
    phalf_from_sigma (List.replicate n 1) (List.replicate n 0) ps
      = List.replicate n ps := by
  unfold phalf_from_sigma
  induction n with
  | zero => rfl
  | succ n ih =>
    simp only [List.replicate_succ, List.zipWith_cons_cons, ih]
    norm_num

/-! ### `get_parent_attr` -/

/-- C8: `get_parent_attr` returns the object's own attribute value when
present and truthy (`robust_bool`, with numpy-array truthiness "any
element nonzero"); otherwise it recurses into the first present relation
attribute among `parent`, `var`, `run`, `model`, `proj` (the walked
ancestor chain) and returns that chain's first truthy match; it raises
`AttributeError` iff `strict` is set and no object on the chain has a
truthy value of the attribute, and returns `None` iff `strict` is unset
and there is no match. -/
theorem get_parent_attr_spec (o : Obj) (a : String) (strict : Bool) :
    (robust_bool (o.attr a) = true →
      get_parent_attr o a strict = .ok (some (o.attr a)))
    ∧ (robust_bool (o.attr a) = false → ∀ q, o.firstLink = some q →
        get_parent_attr o a strict = get_parent_attr q a strict)
    ∧ (get_parent_attr o a strict = .error () ↔
        strict = true ∧ chain_has_attr o a = false)
    ∧ (get_parent_attr o a strict = .ok none ↔
        strict = false ∧ chain_has_attr o a = false) := by
  induction o, a, strict using get_parent_attr.induct with
  | case1 attrs p v r m pr a strict h =>
    refine ⟨fun _ => ?_, fun hf _ _ => absurd h (by simp [hf]), ?_, ?_⟩
    · rw [get_parent_attr.eq_def]
      simp [h]
    · rw [get_parent_attr.eq_def, chain_has_attr.eq_def]
      simp [h]
    · rw [get_parent_attr.eq_def, chain_has_attr.eq_def]
      simp [h]
  | case2 attrs v r m pr a strict po hnot heq ih =>
    have hrb : robust_bool ((Obj.mk attrs (some po) v r m pr).attr a) = false := by
      simpa using hnot
    refine ⟨fun ht => absurd ht (by simp [hrb]), fun _ q hq => ?_, ?_, ?_⟩
    · simp only [Obj.firstLink, Option.orElse] at hq
      cases hq
      rw [get_parent_attr.eq_def]
      simp [hrb]
    · rw [get_parent_attr.eq_def, chain_has_attr.eq_def]
      simp only [hrb]
      simpa using ih.2.2.1
    · rw [get_parent_attr.eq_def, chain_has_attr.eq_def]
      simp only [hrb]
      simpa using ih.2.2.2
  | case3 attrs r m pr a strict vo hnot heq ih =>
    have hrb : robust_bool ((Obj.mk attrs none (some vo) r m pr).attr a) = false := by
      simpa using hnot
    refine ⟨fun ht => absurd ht (by simp [hrb]), fun _ q hq => ?_, ?_, ?_⟩
    · simp only [Obj.firstLink, Option.orElse] at hq
      cases hq
      rw [get_parent_attr.eq_def]
      simp [hrb]
    · rw [get_parent_attr.eq_def, chain_has_attr.eq_def]
      simp only [hrb]
      simpa using ih.2.2.1
    · rw [get_parent_attr.eq_def, chain_has_attr.eq_def]
      simp only [hrb]
      simpa using ih.2.2.2
  | case4 attrs m pr a strict ro hnot heq ih =>
    have hrb : robust_bool ((Obj.mk attrs none none (some ro) m pr).attr a) = false := by
      simpa using hnot
    refine ⟨fun ht => absurd ht (by simp [hrb]), fun _ q hq => ?_, ?_, ?_⟩
    · simp only [Obj.firstLink, Option.orElse] at hq
      cases hq
      rw [get_parent_attr.eq_def]
      simp [hrb]
    · rw [get_parent_attr.eq_def, chain_has_attr.eq_def]
      simp only [hrb]
      simpa using ih.2.2.1
    · rw [get_parent_attr.eq_def, chain_has_attr.eq_def]
      simp only [hrb]
      simpa using ih.2.2.2
  | case5 attrs pr a strict mo hnot heq ih =>
    have hrb : robust_bool ((Obj.mk attrs none none none (some mo) pr).attr a) = false := by
      simpa using hnot
    refine ⟨fun ht => absurd ht (by simp [hrb]), fun _ q hq => ?_, ?_, ?_⟩
    · simp only [Obj.firstLink, Option.orElse] at hq
      cases hq
      rw [get_parent_attr.eq_def]
      simp [hrb]
    · rw [get_parent_attr.eq_def, chain_has_attr.eq_def]
      simp only [hrb]
      simpa using ih.2.2.1
    · rw [get_parent_attr.eq_def, chain_has_attr.eq_def]
      simp only [hrb]
      simpa using ih.2.2.2
  | case6 attrs a strict pro hnot heq ih =>
    have hrb : robust_bool ((Obj.mk attrs none none none none (some pro)).attr a) = false := by
      simpa using hnot
    refine ⟨fun ht => absurd ht (by simp [hrb]), fun _ q hq => ?_, ?_, ?_⟩
    · simp only [Obj.firstLink, Option.orElse] at hq
      cases hq
      rw [get_parent_attr.eq_def]
      simp [hrb]
    · rw [get_parent_attr.eq_def, chain_has_attr.eq_def]
      simp only [hrb]
      simpa using ih.2.2.1
    · rw [get_parent_attr.eq_def, chain_has_attr.eq_def]
      simp only [hrb]
      simpa using ih.2.2.2
  | case7 attrs a hnot heq =>
    have hrb : robust_bool ((Obj.mk attrs none none none none none).attr a) = false := by
      simpa using hnot
    refine ⟨fun ht => absurd ht (by simp [hrb]), fun _ q hq => ?_, ?_, ?_⟩
    · simp [Obj.firstLink, Option.orElse] at hq
    · rw [get_parent_attr.eq_def, chain_has_attr.eq_def]
      simp [hrb]
    · rw [get_parent_attr.eq_def, chain_has_attr.eq_def]
      simp [hrb]
  | case8 attrs a strict hs hnot heq =>
    have hrb : robust_bool ((Obj.mk attrs none none none none none).attr a) = false := by
      simpa using hnot
    refine ⟨fun ht => absurd ht (by simp [hrb]), fun _ q hq => ?_, ?_, ?_⟩
    · simp [Obj.firstLink, Option.orElse] at hq
    · rw [get_parent_attr.eq_def, chain_has_attr.eq_def]
      simp [hrb, hs]
    · rw [get_parent_attr.eq_def, chain_has_attr.eq_def]
      simp [hrb, hs]


/-- Witness for C8: an object with no own `color` attribute and a
`parent` holding one delegates the lookup to the parent. -/
theorem get_parent_attr_spec_witness :
    get_parent_attr obj_child "color" false
      = get_parent_attr obj_with_color "color" false :=
  (get_parent_attr_spec obj_child "color" false).2.1 rfl obj_with_color rfl

/-! ### Termination of `get_parent_attr` -/

/-- C9: on a finite object graph whose ancestor steps admit a decreasing
measure (finite acyclic ancestor graph), `get_parent_attr` terminates:
any fuel above the measure suffices.  On a reference cycle with no truthy
value of the attribute anywhere (one object being its own `parent`), no
amount of fuel finishes the recursion: there is no depth bound. -/
theorem get_parent_attr_termination :
    (∀ (n : ℕ) (G : AttrGraph n) (f : Fin n → ℕ),
      (∀ v w, next_obj G v = some w → f w < f v) →
      ∀ (fuel : ℕ) (v : Fin n) (a : String) (strict : Bool),
        f v < fuel → gpa_fuel G fuel v a strict ≠ none)
    ∧ (∀ (fuel : ℕ) (a : String) (strict : Bool),
        gpa_fuel loop_graph fuel ⟨0, Nat.zero_lt_one⟩ a strict = none) := by
  constructor
  · intro n G f hf fuel
    induction fuel with
    | zero => intro v a strict h; omega
    | succ fuel ih =>
      intro v a strict hv
      simp only [gpa_fuel]
      cases hrb : robust_bool (G.attrs v a) with
      | true => simp [hrb]
      | false =>
        cases hnext : next_obj G v with
        | some w =>
          simp only [hrb, hnext, Bool.false_eq_true, if_false]
          exact ih w a strict (by have := hf v w hnext; omega)
        | none => simp [hrb, hnext]
  · intro fuel a strict
    induction fuel with
    | zero => rfl
    | succ fuel ih =>
      have hnext : next_obj loop_graph ⟨0, Nat.zero_lt_one⟩
          = some ⟨0, Nat.zero_lt_one⟩ := rfl
      simp only [gpa_fuel, loop_graph, robust_bool, hnext,
        Bool.false_eq_true, if_false]
      exact ih

/-- Witness for C9's acyclic part: on the two-object acyclic graph,
fuel 2 already completes the recursion. -/
theorem get_parent_attr_termination_witness :
    gpa_fuel line_graph 2 0 "color" false ≠ none :=
  get_parent_attr_termination.1 2 line_graph
    (fun v => if v.val = 0 then 1 else 0) (by decide) 2 0 "color" false
    (by decide)

/-! ### `dict_name_keys` -/

theorem name_keyed_ok (xs : List Elem) (h : ∀ e ∈ xs, e.name ≠ none) :
    name_keyed xs = .ok (xs.map (fun e => (e.name.getD "", e))) := by
  induction xs with
  | nil => rfl
  | cons e t ih =>
    obtain ⟨s, hs⟩ : ∃ s, e.name = some s := by
      cases hn : e.name with
      | none => exact absurd hn (h e (by simp))
      | some s => exact ⟨s, rfl⟩
    simp [name_keyed, hs, ih (fun x hx => h x (by simp [hx]))]

theorem name_keyed_err (xs : List Elem) (h : ∃ e ∈ xs, e.name = none) :
    name_keyed xs = .error .attributeError := by
  induction xs with
  | nil => simp at h
  | cons e t ih =>
    rcases h with ⟨x, hx, hname⟩
    rcases List.mem_cons.mp hx with rfl | hxt
    · simp [name_keyed, hname]
    · cases hn : e.name with
      | none => simp [name_keyed, hn]
      | some s => simp [name_keyed, hn, ih ⟨x, hxt, hname⟩]

/-- C10: `dict_name_keys` returns dict input unchanged, with no check on
its values' `name` attributes; the name-keyed construction, and the
`AttributeError` when an element lacks `name`, apply exactly to tuple and
list input; any other input fails the `assert` (AssertionError), not the
missing-name error. -/
theorem dict_name_keys_spec :
    (∀ d, dict_name_keys (.dct d) = .ok d)
    ∧ (∀ xs, (∀ e ∈ xs, e.name ≠ none) →
        dict_name_keys (.tup xs) = .ok (xs.map (fun e => (e.name.getD "", e)))
        ∧ dict_name_keys (.lst xs)
            = .ok (xs.map (fun e => (e.name.getD "", e))))
    ∧ (∀ xs, (∃ e ∈ xs, e.name = none) →
        dict_name_keys (.tup xs) = .error .attributeError
        ∧ dict_name_keys (.lst xs) = .error .attributeError)
    ∧ dict_name_keys .other = .error .assertionError
    ∧ dict_name_keys .other ≠ .error .attributeError := by
  refine ⟨fun d => rfl, fun xs h => ?_, fun xs h => ?_, rfl, by
    simp [dict_name_keys]⟩
  · exact ⟨name_keyed_ok xs h, name_keyed_ok xs h⟩
  · exact ⟨name_keyed_err xs h, name_keyed_err xs h⟩

/-- Witness for C10: a one-element list whose element lacks `name` raises
`AttributeError`; the same element inside a dict is returned unchanged. -/
theorem dict_name_keys_spec_witness :
    dict_name_keys (.lst [⟨none, 0⟩]) = .error .attributeError :=
  (dict_name_keys_spec.2.2.1 [⟨none, 0⟩] ⟨⟨none, 0⟩, by simp, rfl⟩).2

end Aospy
